import Mathlib

/-
Verification of the canopy hybrid record encoder
(src/canopy/knowledge_base/record_encoder/hybrid.py) and the Cohere
reranker adapter (src/canopy/knowledge_base/reranker/cohere.py).

Vectors of floats are embedded as lists of rationals; sparse vectors as
parallel index/value lists (as in pinecone_text). Python exceptions are
embedded as an `Except PyErr` result; the distinct exception classes the
source raises are the constructors of `PyErr`.
-/

/-- Python exception classes raised by the two source files. -/
inductive PyErr where
  | valueError (msg : String)
  | typeError (msg : String)
  | runtimeError (msg : String)
  | importError (msg : String)
  | indexError
  deriving DecidableEq, Repr

/-- A sparse vector: parallel lists of indices and values, as produced by
pinecone_text's BM25Encoder and consumed by hybrid_convex_scale. -/
structure SparseVector where
  indices : List ℕ
  values : List ℚ
  deriving DecidableEq, Repr

/-- Modelled from the spec: a Query is "text plus optional filtering/top-k
parameters" (the canopy data model is not under src/). -/
structure Query where
  text : String
  topK : Option ℕ
  metadataFilter : Option String
  deriving DecidableEq, Repr

/-- Modelled from the spec: a KBQuery is "a Query plus values (combined dense
vector) and sparse_values (sparse vector)". The dense record encoder returns
KBQuery objects whose values hold the raw dense encoding. -/
structure KBQuery where
  text : String
  topK : Option ℕ
  metadataFilter : Option String
  values : List ℚ
  sparseValues : Option SparseVector
  deriving DecidableEq, Repr

/-- Modelled from the spec: a DocChunk is "a unit of source text plus
identifying metadata (document id, chunk id, source, text)". -/
structure KBDocChunk where
  id : String
  documentId : String
  source : String
  text : String
  deriving DecidableEq, Repr

/-- Modelled from the spec: an EncodedDocChunk is "a DocChunk plus a dense
vector (values) and a sparse vector (sparse_values)". The dense record
encoder returns these with values set and sparse_values not yet set. -/
structure KBEncodedDocChunk where
  id : String
  documentId : String
  source : String
  text : String
  values : List ℚ
  sparseValues : Option SparseVector
  deriving DecidableEq, Repr

/-- Modelled from the spec: pinecone_text's hybrid_convex_scale (the Hybrid
Combiner of spec section 4.1, an external library function not under src/):
"scales the dense vector element-wise by alpha and scales every value in the
sparse vector by (1 - alpha). Returns both scaled structures." -/
def hybrid_convex_scale (dense : List ℚ) (sparse : SparseVector) (alpha : ℚ) :
    List ℚ × SparseVector :=
  (dense.map (fun v => v * alpha),
   ⟨sparse.indices, sparse.values.map (fun v => v * (1 - alpha))⟩)

/-- A truthiness-carrying stand-in for the Python value passed as
dense_record_encoder to HybridRecordEncoder.__init__: the source tests it
with `if dense_record_encoder:` (truthiness) and with isinstance. -/
structure PyObj where
  truthy : Bool
  isDenseRecordEncoder : Bool
  deriving DecidableEq, Repr

/-- HybridRecordEncoder.__init__ (hybrid.py lines 37-75): raises ValueError
for alpha = 0, ValueError for alpha outside (0, 1], then, when the supplied
dense_record_encoder is truthy, raises TypeError unless it is a
DenseRecordEncoder instance; a falsy (or absent) argument selects the
default encoder. Returns the encoder choice (some obj = the supplied one,
none = the default) together with the stored alpha. -/
def hybridInit (denseRecordEncoder : Option PyObj) (alpha : ℚ) :
    Except PyErr (Option PyObj × ℚ) :=
  if alpha = 0 then
    .error (.valueError
      "Sparse only representation is not supported. Alpha must be greater than 0.")
  else if ¬ (0 < alpha ∧ alpha ≤ 1) then
    .error (.valueError "Alpha must be between 0 (excluded) and 1 (included)")
  else
    match denseRecordEncoder with
    | some obj =>
      if obj.truthy then
        if ¬ obj.isDenseRecordEncoder then
          .error (.typeError
            "dense_encoder must be an instance of DenseRecordEncoder")
        else .ok (some obj, alpha)
      else .ok (none, alpha)
    | none => .ok (none, alpha)

/-- The state of a constructed HybridRecordEncoder: the two encoder
capabilities (spec section 6) as opaque functions, and the fixed alpha. -/
structure HybridRecordEncoder where
  denseEncodeDocuments : List KBDocChunk → List KBEncodedDocChunk
  denseEncodeQueries : List Query → List KBQuery
  sparseEncodeDocuments : List String → List SparseVector
  sparseEncodeQueries : List String → List SparseVector
  alpha : ℚ

/-- The `for chunk, sv in zip(chunks, sparse_values): chunk.sparse_values = sv`
loop of _encode_documents_batch (hybrid.py lines 105-106): zip truncates to
the shorter list, chunks beyond it keep their prior sparse_values, and the
whole chunks list is the result. -/
def setSparseValues : List KBEncodedDocChunk → List SparseVector →
    List KBEncodedDocChunk
  | chunks, [] => chunks
  | [], _ => []
  | c :: cs, sv :: svs => { c with sparseValues := some sv } :: setSparseValues cs svs

/-- HybridRecordEncoder._encode_documents_batch (hybrid.py lines 87-107). -/
def encodeDocumentsBatch (enc : HybridRecordEncoder)
    (documents : List KBDocChunk) : List KBEncodedDocChunk :=
  let chunks := enc.denseEncodeDocuments documents
  let sparseValues := enc.sparseEncodeDocuments (documents.map KBDocChunk.text)
  setSparseValues chunks sparseValues

/-- HybridRecordEncoder._encode_queries_batch (hybrid.py lines 109-128):
encodes with both capabilities, applies hybrid_convex_scale pairwise, and
returns each dense-encoder KBQuery with values and sparse_values replaced
(pydantic copy with update keeps every other field). -/
def encodeQueriesBatch (enc : HybridRecordEncoder) (queries : List Query) :
    List KBQuery :=
  let denseQueries := enc.denseEncodeQueries queries
  let sparseValues := enc.sparseEncodeQueries (queries.map Query.text)
  let scaledValues := (denseQueries.zip sparseValues).map
    (fun p => hybrid_convex_scale p.1.values p.2 enc.alpha)
  (denseQueries.zip scaledValues).map
    (fun p => { p.1 with values := p.2.1, sparseValues := some p.2.2 })

/-- Modelled from the spec: a candidate Document is "text, identifying
fields, and a score" (the canopy data model is not under src/). -/
structure Document where
  id : String
  text : String
  source : String
  score : Option ℚ
  deriving DecidableEq, Repr

/-- Modelled from the spec: a KBQueryResult is "a query paired with an
ordered sequence of Documents". -/
structure KBQueryResult where
  query : String
  documents : List Document
  deriving DecidableEq, Repr

/-- One entry of the Cohere rerank response: an (original index, relevance
score) pair, as consumed by CohereReranker.rerank. -/
structure RerankResult where
  index : ℕ
  relevanceScore : ℚ
  deriving DecidableEq, Repr

/-- The state of a constructed CohereReranker: the scoring-service client as
an opaque capability taking (query text, document texts, model name) and
returning the ranked results or a CohereAPIError message. -/
structure CohereReranker where
  modelName : String
  nResults : ℕ
  clientRerank : String → List String → String → Except String (List RerankResult)

/-- Python truthiness of an optional string (`api_key or ...` in the
source): None and the empty string are falsy. -/
def pyTruthyStr : Option String → Bool
  | none => false
  | some s => ! s.isEmpty

/-- CohereReranker.__init__ (cohere.py lines 25-56): raises ImportError when
the cohere package is absent, resolves the credential as
`api_key or os.environ.get CO_API_KEY`, raises RuntimeError when that is
None, and otherwise stores (model name, n_results, credential). -/
def cohereInit (cohereInstalled : Bool) (modelName : String) (nResults : ℕ)
    (apiKey : Option String) (envCoApiKey : Option String) :
    Except PyErr (String × ℕ × String) :=
  if ! cohereInstalled then
    .error (.importError ("Failed to import cohere. Make sure you install " ++
      "cohere extra dependencies by running: pip install canopy-sdk[cohere]"))
  else
    let cohereApiKey := if pyTruthyStr apiKey then apiKey else envCoApiKey
    match cohereApiKey with
    | none => .error (.runtimeError ("Cohere API key is required to use " ++
        "Cohere Reranker. Please provide it as an argument " ++
        "or set the CO_API_KEY environment variable."))
    | some key => .ok (modelName, nResults, key)

/-- The `result.documents[rerank_result.index].model_copy(deep=True,
update=dict(score=...))` loop body of CohereReranker.rerank (cohere.py lines
70-76): each retained ranked entry yields a copy of the candidate at its
index with only the score replaced; an out-of-range index raises IndexError. -/
def buildRerankedDocs (docs : List Document) :
    List RerankResult → Except PyErr (List Document)
  | [] => .ok []
  | rr :: rest =>
    match docs[rr.index]? with
    | none => .error .indexError
    | some doc => do
      let ds ← buildRerankedDocs docs rest
      pure ({ doc with score := some rr.relevanceScore } :: ds)

/-- The per-KBQueryResult body of CohereReranker.rerank (cohere.py lines
60-79): calls the client on the documents' texts, wraps a CohereAPIError in
a RuntimeError carrying the provider's message, truncates the response to
n_results, and rebuilds the result with the same query. -/
def rerankOne (r : CohereReranker) (result : KBQueryResult) :
    Except PyErr KBQueryResult :=
  let texts := result.documents.map Document.text
  match r.clientRerank result.query texts r.modelName with
  | .error e => .error (.runtimeError
      ("Failed to rerank documents using Cohere. Underlying Error:\n" ++ e))
  | .ok response => do
    let docs ← buildRerankedDocs result.documents (response.take r.nResults)
    pure ⟨result.query, docs⟩

/-- CohereReranker.rerank (cohere.py lines 58-80): processes the input
results in order; the first failure aborts the whole call. -/
def CohereReranker.rerank (r : CohereReranker) :
    List KBQueryResult → Except PyErr (List KBQueryResult)
  | [] => .ok []
  | result :: rest => do
    let one ← rerankOne r result
    let others ← CohereReranker.rerank r rest
    pure (one :: others)

section HybridLemmas

lemma encodeQueriesBatch_length (enc : HybridRecordEncoder)
    (queries : List Query) :
    (encodeQueriesBatch enc queries).length =
      min (enc.denseEncodeQueries queries).length
          (enc.sparseEncodeQueries (queries.map Query.text)).length := by
  simp [encodeQueriesBatch]

lemma encodeQueriesBatch_getD (enc : HybridRecordEncoder)
    (queries : List Query) (i : ℕ)
    (hd : i < (enc.denseEncodeQueries queries).length)
    (hs : i < (enc.sparseEncodeQueries (queries.map Query.text)).length)
    (d0 d1 : KBQuery) (s1 : SparseVector) :
    (encodeQueriesBatch enc queries).getD i d0 =
      { (enc.denseEncodeQueries queries).getD i d1 with
        values := ((enc.denseEncodeQueries queries).getD i d1).values.map
          (fun v => v * enc.alpha),
        sparseValues := some
          ⟨((enc.sparseEncodeQueries (queries.map Query.text)).getD i s1).indices,
           ((enc.sparseEncodeQueries (queries.map Query.text)).getD i s1).values.map
             (fun v => v * (1 - enc.alpha))⟩ } := by
  have hout : i < (encodeQueriesBatch enc queries).length := by
    rw [encodeQueriesBatch_length]; omega
  rw [List.getD_eq_getElem _ _ hout, List.getD_eq_getElem _ _ hd,
      List.getD_eq_getElem _ _ hs]
  simp [encodeQueriesBatch, hybrid_convex_scale, List.getElem_zip]

lemma setSparseValues_length (cs : List KBEncodedDocChunk)
    (svs : List SparseVector) :
    (setSparseValues cs svs).length = cs.length := by
  induction cs generalizing svs with
  | nil => cases svs <;> rfl
  | cons c cs ih =>
    cases svs with
    | nil => rfl
    | cons sv svs => simp [setSparseValues, ih]

lemma setSparseValues_getD_lt (cs : List KBEncodedDocChunk)
    (svs : List SparseVector) (i : ℕ) (hic : i < cs.length)
    (his : i < svs.length) (d : KBEncodedDocChunk) (ds : SparseVector) :
    (setSparseValues cs svs).getD i d =
      { cs.getD i d with sparseValues := some (svs.getD i ds) } := by
  induction cs generalizing svs i with
  | nil => simp at hic
  | cons c cs ih =>
    cases svs with
    | nil => simp at his
    | cons sv svs =>
      cases i with
      | zero => rfl
      | succ i =>
        simp only [setSparseValues, List.getD_cons_succ]
        exact ih svs i (by simpa using hic) (by simpa using his)

lemma setSparseValues_getD_ge (cs : List KBEncodedDocChunk)
    (svs : List SparseVector) (i : ℕ) (his : svs.length ≤ i)
    (d : KBEncodedDocChunk) :
    (setSparseValues cs svs).getD i d = cs.getD i d := by
  induction cs generalizing svs i with
  | nil => cases svs <;> rfl
  | cons c cs ih =>
    cases svs with
    | nil => rfl
    | cons sv svs =>
      cases i with
      | zero => simp at his
      | succ i =>
        simp only [setSparseValues, List.getD_cons_succ]
        exact ih svs i (by simpa using his)

end HybridLemmas

/-- C1: for an encoder with alpha in (0, 1], every KBQuery returned by
encode_queries_batch has dense values equal to the raw dense encoding scaled
element-wise by exactly alpha and sparse values equal to the raw sparse
encoding scaled by exactly (1 - alpha); for alpha = 1 the dense vector is
unchanged and every sparse output value is zero. -/
theorem encode_queries_scaling (enc : HybridRecordEncoder)
    (queries : List Query) (h0 : 0 < enc.alpha) (h1 : enc.alpha ≤ 1) (i : ℕ)
    (hd : i < (enc.denseEncodeQueries queries).length)
    (hs : i < (enc.sparseEncodeQueries (queries.map Query.text)).length)
    (d0 d1 : KBQuery) (s1 : SparseVector) :
    ((encodeQueriesBatch enc queries).getD i d0).values =
      ((enc.denseEncodeQueries queries).getD i d1).values.map
        (fun v => v * enc.alpha) ∧
    ((encodeQueriesBatch enc queries).getD i d0).sparseValues =
      some ⟨((enc.sparseEncodeQueries (queries.map Query.text)).getD i s1).indices,
            ((enc.sparseEncodeQueries (queries.map Query.text)).getD i s1).values.map
              (fun v => v * (1 - enc.alpha))⟩ ∧
    (enc.alpha = 1 →
      ((encodeQueriesBatch enc queries).getD i d0).values =
        ((enc.denseEncodeQueries queries).getD i d1).values ∧
      ∀ w, ((encodeQueriesBatch enc queries).getD i d0).sparseValues = some w →
        ∀ v ∈ w.values, v = 0) := by
  rw [encodeQueriesBatch_getD enc queries i hd hs d0 d1 s1]
  refine ⟨rfl, rfl, fun ha => ⟨by simp [ha], ?_⟩⟩
  intro w hw v hv
  cases hw
  rw [ha] at hv
  simp only [sub_self, mul_zero, List.mem_map] at hv
  obtain ⟨a, -, hv2⟩ := hv
  exact hv2.symm

/-- Witness for encode_queries_scaling: a concrete encoder with alpha = 3/10
on a one-query batch, whose dense encoding is [1, 2] and sparse encoding is
values [4] at index 5; the output values are [3/10, 3/5] and the sparse
values [14/5]. -/
theorem encode_queries_scaling_witness :
    (0 : ℚ) < (3 / 10 : ℚ) ∧ (3 / 10 : ℚ) ≤ 1 ∧
    ((encodeQueriesBatch
        ⟨fun _ => [], fun _ => [⟨"q", none, none, [1, 2], none⟩],
         fun _ => [], fun _ => [⟨[5], [4]⟩], 3 / 10⟩
        [⟨"q", none, none⟩]).getD 0 ⟨"", none, none, [], none⟩).values =
      [1 * (3 / 10), 2 * (3 / 10)] := by
  refine ⟨by norm_num, by norm_num, ?_⟩
  have h := encode_queries_scaling
    ⟨fun _ => [], fun _ => [⟨"q", none, none, [1, 2], none⟩],
     fun _ => [], fun _ => [⟨[5], [4]⟩], 3 / 10⟩
    [⟨"q", none, none⟩] (by norm_num) (by norm_num) 0
    (by simp) (by simp) ⟨"", none, none, [], none⟩
    ⟨"", none, none, [], none⟩ ⟨[], []⟩
  exact h.1

/-- C8: a KBQuery produced by encode_queries_batch keeps every field other
than values and sparse_values from the corresponding input Query, provided
the dense encoder capability itself preserves those fields (its code is not
under src/; the contract is the spec's). -/
theorem encode_queries_preserves_fields (enc : HybridRecordEncoder)
    (queries : List Query) (i : ℕ)
    (hd : i < (enc.denseEncodeQueries queries).length)
    (hs : i < (enc.sparseEncodeQueries (queries.map Query.text)).length)
    (d0 d1 : KBQuery) (s1 : SparseVector) (dq : Query)
    (hcontract :
      ((enc.denseEncodeQueries queries).getD i d1).text =
        (queries.getD i dq).text ∧
      ((enc.denseEncodeQueries queries).getD i d1).topK =
        (queries.getD i dq).topK ∧
      ((enc.denseEncodeQueries queries).getD i d1).metadataFilter =
        (queries.getD i dq).metadataFilter) :
    ((encodeQueriesBatch enc queries).getD i d0).text =
      (queries.getD i dq).text ∧
    ((encodeQueriesBatch enc queries).getD i d0).topK =
      (queries.getD i dq).topK ∧
    ((encodeQueriesBatch enc queries).getD i d0).metadataFilter =
      (queries.getD i dq).metadataFilter := by
  rw [encodeQueriesBatch_getD enc queries i hd hs d0 d1 s1]
  exact hcontract

/-- Witness for encode_queries_preserves_fields: the concrete one-query
batch of the scaling witness, with topK = some 7 carried through. -/
theorem encode_queries_preserves_fields_witness :
    ((encodeQueriesBatch
        ⟨fun _ => [], fun _ => [⟨"q", some 7, none, [1, 2], none⟩],
         fun _ => [], fun _ => [⟨[5], [4]⟩], 3 / 10⟩
        [⟨"q", some 7, none⟩]).getD 0 ⟨"", none, none, [], none⟩).topK =
      ([(⟨"q", some 7, none⟩ : Query)].getD 0 ⟨"", none, none⟩).topK := by
  have h := encode_queries_preserves_fields
    ⟨fun _ => [], fun _ => [⟨"q", some 7, none, [1, 2], none⟩],
     fun _ => [], fun _ => [⟨[5], [4]⟩], 3 / 10⟩
    [⟨"q", some 7, none⟩] 0 (by simp) (by simp)
    ⟨"", none, none, [], none⟩ ⟨"", none, none, [], none⟩ ⟨[], []⟩
    ⟨"", none, none⟩ ⟨rfl, rfl, rfl⟩
  exact h.2.1

/-- C4: when the dense and sparse document encodings both have one entry per
input chunk, encode_documents_batch returns exactly one chunk per input in
the dense encoder's (input) order, each equal to the dense chunk with its
sparse_values set to the positionally matching sparse vector and its dense
values untouched (no alpha weighting); positions whose dense and sparse
encodings are non-empty yield chunks with both fields populated and
non-empty. -/
theorem encode_documents_batch_correct (enc : HybridRecordEncoder)
    (documents : List KBDocChunk)
    (hdl : (enc.denseEncodeDocuments documents).length = documents.length)
    (hsl : (enc.sparseEncodeDocuments (documents.map KBDocChunk.text)).length =
      documents.length) :
    (encodeDocumentsBatch enc documents).length = documents.length ∧
    (∀ i, i < documents.length → ∀ (d : KBEncodedDocChunk) (ds : SparseVector),
      (encodeDocumentsBatch enc documents).getD i d =
        { (enc.denseEncodeDocuments documents).getD i d with
          sparseValues := some
            ((enc.sparseEncodeDocuments (documents.map KBDocChunk.text)).getD i ds) }) ∧
    (∀ i, i < documents.length → ∀ (d : KBEncodedDocChunk) (ds : SparseVector),
      ((enc.denseEncodeDocuments documents).getD i d).values ≠ [] →
      ((enc.sparseEncodeDocuments (documents.map KBDocChunk.text)).getD i ds).values ≠ [] →
      ((encodeDocumentsBatch enc documents).getD i d).values ≠ [] ∧
      ∃ sv, ((encodeDocumentsBatch enc documents).getD i d).sparseValues = some sv ∧
        sv.values ≠ []) := by
  have hkey : ∀ i, i < documents.length →
      ∀ (d : KBEncodedDocChunk) (ds : SparseVector),
      (encodeDocumentsBatch enc documents).getD i d =
        { (enc.denseEncodeDocuments documents).getD i d with
          sparseValues := some
            ((enc.sparseEncodeDocuments (documents.map KBDocChunk.text)).getD i ds) } := by
    intro i hi d ds
    exact setSparseValues_getD_lt _ _ i (by omega) (by omega) d ds
  refine ⟨?_, hkey, ?_⟩
  · have := setSparseValues_length (enc.denseEncodeDocuments documents)
      (enc.sparseEncodeDocuments (documents.map KBDocChunk.text))
    simpa [encodeDocumentsBatch, hdl] using this
  · intro i hi d ds hv hsv
    rw [hkey i hi d ds]
    exact ⟨hv, _, rfl, hsv⟩

/-- Witness for encode_documents_batch_correct: a concrete encoder and a
two-chunk batch with matching two-element dense and sparse outputs; the
first output chunk is the first dense chunk with the first sparse vector
attached. -/
theorem encode_documents_batch_correct_witness :
    (encodeDocumentsBatch
        ⟨fun _ => [⟨"c1", "d1", "s", "t1", [1], none⟩,
                   ⟨"c2", "d2", "s", "t2", [2], none⟩],
         fun _ => [], fun _ => [⟨[0], [3]⟩, ⟨[1], [4]⟩], fun _ => [], 1 / 2⟩
        [⟨"c1", "d1", "s", "t1"⟩, ⟨"c2", "d2", "s", "t2"⟩]).getD 0
        ⟨"", "", "", "", [], none⟩ =
      ⟨"c1", "d1", "s", "t1", [1], some ⟨[0], [3]⟩⟩ := by
  have h := encode_documents_batch_correct
    ⟨fun _ => [⟨"c1", "d1", "s", "t1", [1], none⟩,
               ⟨"c2", "d2", "s", "t2", [2], none⟩],
     fun _ => [], fun _ => [⟨[0], [3]⟩, ⟨[1], [4]⟩], fun _ => [], 1 / 2⟩
    [⟨"c1", "d1", "s", "t1"⟩, ⟨"c2", "d2", "s", "t2"⟩] (by simp) (by simp)
  rw [h.2.1 0 (by simp) ⟨"", "", "", "", [], none⟩ ⟨[], []⟩]
  rfl

/-- C2 counterexample: a concrete encoder whose dense document call returns
two chunks while the sparse call returns one sparse vector. The source's
zip-based loop raises nothing: encode_documents_batch returns both chunks,
the second with its sparse_values still unset, contradicting the claim that
a length mismatch fails with IntegrationError and returns no result. -/
theorem encode_documents_mismatch_counterexample :
    encodeDocumentsBatch
        ⟨fun _ => [⟨"c1", "d1", "s", "t1", [1], none⟩,
                   ⟨"c2", "d2", "s", "t2", [2], none⟩],
         fun _ => [], fun _ => [⟨[0], [3]⟩], fun _ => [], 1 / 2⟩
        [⟨"c1", "d1", "s", "t1"⟩, ⟨"c2", "d2", "s", "t2"⟩] =
      [⟨"c1", "d1", "s", "t1", [1], some ⟨[0], [3]⟩⟩,
       ⟨"c2", "d2", "s", "t2", [2], none⟩] := by
  rfl

/-- C2 amended: encode_documents_batch performs no length check. It always
returns exactly the dense encoder's chunk list; positions covered by the
sparse output get that sparse vector attached, positions beyond the sparse
output keep their prior sparse_values, and no error is ever raised. -/
theorem encode_documents_mismatch_behavior (enc : HybridRecordEncoder)
    (documents : List KBDocChunk) (i : ℕ) (d : KBEncodedDocChunk)
    (ds : SparseVector) :
    (encodeDocumentsBatch enc documents).length =
      (enc.denseEncodeDocuments documents).length ∧
    ((enc.sparseEncodeDocuments (documents.map KBDocChunk.text)).length ≤ i →
      (encodeDocumentsBatch enc documents).getD i d =
        (enc.denseEncodeDocuments documents).getD i d) ∧
    (i < (enc.sparseEncodeDocuments (documents.map KBDocChunk.text)).length →
     i < (enc.denseEncodeDocuments documents).length →
      (encodeDocumentsBatch enc documents).getD i d =
        { (enc.denseEncodeDocuments documents).getD i d with
          sparseValues := some
            ((enc.sparseEncodeDocuments (documents.map KBDocChunk.text)).getD i ds) }) := by
  refine ⟨setSparseValues_length _ _, ?_, ?_⟩
  · intro hge
    exact setSparseValues_getD_ge _ _ i hge d
  · intro hlt hltd
    exact setSparseValues_getD_lt _ _ i hltd hlt d ds

/-- Witness for encode_documents_mismatch_behavior: the mismatched encoder
of the counterexample at position 1, which is beyond the one-element sparse
output and therefore keeps its unset sparse_values. -/
theorem encode_documents_mismatch_behavior_witness :
    (encodeDocumentsBatch
        ⟨fun _ => [⟨"c1", "d1", "s", "t1", [1], none⟩,
                   ⟨"c2", "d2", "s", "t2", [2], none⟩],
         fun _ => [], fun _ => [⟨[0], [3]⟩], fun _ => [], 1 / 2⟩
        [⟨"c1", "d1", "s", "t1"⟩, ⟨"c2", "d2", "s", "t2"⟩]).getD 1
        ⟨"", "", "", "", [], none⟩ =
      ⟨"c2", "d2", "s", "t2", [2], none⟩ := by
  have h := encode_documents_mismatch_behavior
    ⟨fun _ => [⟨"c1", "d1", "s", "t1", [1], none⟩,
               ⟨"c2", "d2", "s", "t2", [2], none⟩],
     fun _ => [], fun _ => [⟨[0], [3]⟩], fun _ => [], 1 / 2⟩
    [⟨"c1", "d1", "s", "t1"⟩, ⟨"c2", "d2", "s", "t2"⟩] 1
    ⟨"", "", "", "", [], none⟩ ⟨[], []⟩
  rw [h.2.1 (by simp)]
  rfl

/-- C5: constructing a HybridRecordEncoder with alpha = 0 raises ValueError,
with any alpha outside (0, 1] raises ValueError, and with alpha = 1/2 (and
the default dense encoder) succeeds. -/
theorem hybrid_init_alpha_validation (d : Option PyObj) (alpha : ℚ)
    (hbad : ¬ (0 < alpha ∧ alpha ≤ 1)) :
    (∃ msg, hybridInit d 0 = .error (.valueError msg)) ∧
    (∃ msg, hybridInit d alpha = .error (.valueError msg)) ∧
    hybridInit none (1 / 2) = .ok (none, 1 / 2) := by
  refine ⟨⟨"Sparse only representation is not supported. Alpha must be greater than 0.",
    by simp [hybridInit]⟩, ?_, by norm_num [hybridInit]⟩
  by_cases h0 : alpha = 0
  · exact ⟨"Sparse only representation is not supported. Alpha must be greater than 0.",
      by simp [hybridInit, h0]⟩
  · exact ⟨"Alpha must be between 0 (excluded) and 1 (included)",
      by simp [hybridInit, h0, hbad]⟩

/-- Witness for hybrid_init_alpha_validation at alpha = 3/2, which lies
outside (0, 1]. -/
theorem hybrid_init_alpha_validation_witness :
    ¬ ((0 : ℚ) < 3 / 2 ∧ (3 / 2 : ℚ) ≤ 1) ∧
    (∃ msg, hybridInit none (3 / 2) = .error (.valueError msg)) := by
  refine ⟨by norm_num, ?_⟩
  exact (hybrid_init_alpha_validation none (3 / 2) (by norm_num)).2.1

/-- C9 counterexample: a supplied dense_record_encoder value that is falsy
(in the Python sense) and is not a DenseRecordEncoder instance does not make
construction fail: the `if dense_record_encoder:` truthiness guard skips the
isinstance check and construction succeeds with the default encoder, so a
non-conforming supplied value does not always fail at construction time. -/
theorem hybrid_init_nonconforming_counterexample :
    hybridInit (some ⟨false, false⟩) (1 / 2) = .ok (none, 1 / 2) := by
  norm_num [hybridInit]

/-- C9 amended: a supplied truthy value that is not a DenseRecordEncoder
instance fails with TypeError at construction time (given an alpha that
passes validation); a falsy supplied value is silently treated as absent and
replaced by the default encoder. -/
theorem hybrid_init_typecheck (obj : PyObj) (alpha : ℚ)
    (htruthy : obj.truthy = true) (hnc : obj.isDenseRecordEncoder = false)
    (h0 : 0 < alpha) (h1 : alpha ≤ 1) :
    hybridInit (some obj) alpha = .error (.typeError
      "dense_encoder must be an instance of DenseRecordEncoder") := by
  have hne : alpha ≠ 0 := ne_of_gt h0
  simp [hybridInit, hne, h0, h1, htruthy, hnc]

/-- Witness for hybrid_init_typecheck: a truthy non-DenseRecordEncoder value
supplied together with alpha = 1/2. -/
theorem hybrid_init_typecheck_witness :
    (PyObj.mk true false).truthy = true ∧
    (PyObj.mk true false).isDenseRecordEncoder = false ∧
    (0 : ℚ) < 1 / 2 ∧ (1 / 2 : ℚ) ≤ 1 ∧
    hybridInit (some ⟨true, false⟩) (1 / 2) = .error (.typeError
      "dense_encoder must be an instance of DenseRecordEncoder") := by
  refine ⟨rfl, rfl, by norm_num, by norm_num, ?_⟩
  exact hybrid_init_typecheck ⟨true, false⟩ (1 / 2) rfl rfl (by norm_num)
    (by norm_num)

section RerankerLemmas

lemma buildRerankedDocs_ok (docs : List Document) (rrs : List RerankResult)
    (h : ∀ rr ∈ rrs, rr.index < docs.length) :
    ∃ out, buildRerankedDocs docs rrs = .ok out ∧ out.length = rrs.length ∧
      ∀ (k : ℕ) (dD : Document) (dR : RerankResult), k < rrs.length →
        out.getD k dD =
          { docs.getD (rrs.getD k dR).index dD with
            score := some (rrs.getD k dR).relevanceScore } := by
  induction rrs with
  | nil =>
    exact ⟨[], rfl, rfl, fun k dD dR hk => by simp at hk⟩
  | cons rr rest ih =>
    obtain ⟨out, hout, hlen, hget⟩ :=
      ih (fun r hr => h r (List.mem_cons_of_mem rr hr))
    have hidx : rr.index < docs.length := h rr (List.mem_cons_self rr rest)
    refine ⟨{ docs.get ⟨rr.index, hidx⟩ with score := some rr.relevanceScore } :: out,
      ?_, by simp [hlen], ?_⟩
    · unfold buildRerankedDocs
      rw [List.getElem?_eq_getElem hidx, hout]
      rfl
    · intro k dD dR hk
      cases k with
      | zero =>
        rw [List.getD_cons_zero, List.getD_cons_zero,
            List.getD_eq_getElem docs dD hidx]
        rfl
      | succ k =>
        rw [List.getD_cons_succ, List.getD_cons_succ]
        exact hget k dD dR (by simpa using hk)

lemma rerankOne_ok (r : CohereReranker) (res : KBQueryResult)
    (response : List RerankResult)
    (hresp : r.clientRerank res.query (res.documents.map Document.text)
      r.modelName = .ok response)
    (hidx : ∀ rr ∈ response.take r.nResults, rr.index < res.documents.length) :
    ∃ out, rerankOne r res = .ok out ∧ out.query = res.query ∧
      out.documents.length = min r.nResults response.length ∧
      ∀ (k : ℕ) (dD : Document) (dR : RerankResult),
        k < out.documents.length →
        out.documents.getD k dD =
          { res.documents.getD ((response.take r.nResults).getD k dR).index dD with
            score := some ((response.take r.nResults).getD k dR).relevanceScore } := by
  obtain ⟨docs, hdocs, hlen, hget⟩ :=
    buildRerankedDocs_ok res.documents (response.take r.nResults) hidx
  refine ⟨⟨res.query, docs⟩, ?_, rfl, ?_, ?_⟩
  · simp only [rerankOne, hresp]
    rw [hdocs]
    rfl
  · simpa using hlen
  · intro k dD dR hk
    apply hget
    have hk2 : k < docs.length := hk
    have hk3 : docs.length = (List.take r.nResults response).length := hlen
    omega

end RerankerLemmas

/-- C3: when the scoring service successfully ranks a KBQueryResult's
documents (returning in-range indices), rerank returns at most n_results
documents, exactly n_results when the ranking has at least that many, in
exactly the ranking's order, each equal to the original candidate at the
returned index with only the score field overwritten by the returned
relevance score; restoring the score recovers the original document
unchanged (the output is a copy, the input documents are untouched). -/
theorem rerank_truncation_and_copy (r : CohereReranker) (res : KBQueryResult)
    (response : List RerankResult)
    (hresp : r.clientRerank res.query (res.documents.map Document.text)
      r.modelName = .ok response)
    (hidx : ∀ rr ∈ response.take r.nResults, rr.index < res.documents.length) :
    ∃ out, r.rerank [res] = .ok [out] ∧
      out.documents.length ≤ r.nResults ∧
      out.documents.length = min r.nResults response.length ∧
      (r.nResults ≤ response.length → out.documents.length = r.nResults) ∧
      ∀ (k : ℕ) (dD : Document) (dR : RerankResult),
        k < out.documents.length →
        out.documents.getD k dD =
          { res.documents.getD ((response.take r.nResults).getD k dR).index dD with
            score := some ((response.take r.nResults).getD k dR).relevanceScore } ∧
        { out.documents.getD k dD with
          score := (res.documents.getD
            ((response.take r.nResults).getD k dR).index dD).score } =
          res.documents.getD ((response.take r.nResults).getD k dR).index dD := by
  obtain ⟨out, hone, -, hlen, hget⟩ := rerankOne_ok r res response hresp hidx
  refine ⟨out, ?_, ?_, hlen, ?_, ?_⟩
  · simp only [CohereReranker.rerank, hone]
    rfl
  · rw [hlen]; omega
  · intro hge; rw [hlen]; omega
  · intro k dD dR hk
    refine ⟨hget k dD dR hk, ?_⟩
    rw [hget k dD dR hk]

/-- Witness for rerank_truncation_and_copy: n_results = 1 against a
two-entry ranking over two candidates; exactly one document comes back, the
candidate at ranked index 1 with score 9/10. -/
theorem rerank_truncation_and_copy_witness :
    ∃ out,
      (CohereReranker.mk "m" 1
          (fun _ _ _ => .ok [⟨1, 9 / 10⟩, ⟨0, 1 / 2⟩])).rerank
        [⟨"qq", [⟨"i1", "t1", "s", some (1 / 10)⟩,
                 ⟨"i2", "t2", "s", some (2 / 10)⟩]⟩] = .ok [out] ∧
      out.documents.length = 1 ∧
      out.documents.getD 0 ⟨"", "", "", none⟩ =
        ⟨"i2", "t2", "s", some (9 / 10)⟩ := by
  obtain ⟨out, hok, -, hlen, hex, hget⟩ := rerank_truncation_and_copy
    (CohereReranker.mk "m" 1 (fun _ _ _ => .ok [⟨1, 9 / 10⟩, ⟨0, 1 / 2⟩]))
    ⟨"qq", [⟨"i1", "t1", "s", some (1 / 10)⟩, ⟨"i2", "t2", "s", some (2 / 10)⟩]⟩
    [⟨1, 9 / 10⟩, ⟨0, 1 / 2⟩] rfl (by decide)
  refine ⟨out, hok, ?_, ?_⟩
  · simpa using hlen
  · rw [(hget 0 ⟨"", "", "", none⟩ ⟨0, 0⟩ (by simp [hlen])).1]
    rfl

/-- C6: when every query before position i reranks successfully and the
scoring call for the query at position i fails with provider message e, the
whole rerank call fails with a RuntimeError whose message contains e, and no
partial output is produced. -/
theorem rerank_error_propagation (r : CohereReranker)
    (results : List KBQueryResult) (i : ℕ) (hi : i < results.length)
    (e : String) (dQ : KBQueryResult)
    (hfail : r.clientRerank (results.getD i dQ).query
      ((results.getD i dQ).documents.map Document.text) r.modelName = .error e)
    (hbefore : ∀ j, j < i → ∃ out, rerankOne r (results.getD j dQ) = .ok out) :
    r.rerank results = .error (.runtimeError
      ("Failed to rerank documents using Cohere. Underlying Error:\n" ++ e)) := by
  induction results generalizing i with
  | nil => simp at hi
  | cons res rest ih =>
    cases i with
    | zero =>
      rw [List.getD_cons_zero] at hfail
      have hone : rerankOne r res = .error (.runtimeError
          ("Failed to rerank documents using Cohere. Underlying Error:\n" ++ e)) := by
        simp only [rerankOne, hfail]
      simp only [CohereReranker.rerank, hone]
      rfl
    | succ i =>
      obtain ⟨out0, hout0⟩ := hbefore 0 (Nat.succ_pos i)
      rw [List.getD_cons_zero] at hout0
      rw [List.getD_cons_succ] at hfail
      have hrest : r.rerank rest = .error (.runtimeError
          ("Failed to rerank documents using Cohere. Underlying Error:\n" ++ e)) := by
        refine ih i (by simpa using hi) hfail ?_
        intro j hj
        have hb := hbefore (j + 1) (by omega)
        rwa [List.getD_cons_succ] at hb
      simp only [CohereReranker.rerank, hout0, hrest]
      rfl

/-- Witness for rerank_error_propagation: a one-element batch whose scoring
call fails with message boom. -/
theorem rerank_error_propagation_witness :
    (CohereReranker.mk "m" 5 (fun _ _ _ => .error "boom")).rerank
        [⟨"q1", []⟩] = .error (.runtimeError
      ("Failed to rerank documents using Cohere. Underlying Error:\n" ++ "boom")) := by
  exact rerank_error_propagation
    (CohereReranker.mk "m" 5 (fun _ _ _ => .error "boom"))
    [⟨"q1", []⟩] 0 (by simp) "boom" ⟨"", []⟩ rfl
    (fun j hj => absurd hj (by omega))

/-- C10: when every query's scoring call succeeds with in-range indices,
rerank returns exactly one KBQueryResult per input, in input order, each
carrying its input's query text, with document count min n_results
(ranking length); in particular a ranking shorter than n_results is
returned whole, with no error. -/
theorem rerank_batch_shape (r : CohereReranker) (results : List KBQueryResult)
    (h : ∀ res ∈ results, ∃ response,
      r.clientRerank res.query (res.documents.map Document.text)
        r.modelName = .ok response ∧
      ∀ rr ∈ response.take r.nResults, rr.index < res.documents.length) :
    ∃ outs, r.rerank results = .ok outs ∧ outs.length = results.length ∧
      ∀ (i : ℕ) (dQ : KBQueryResult), i < results.length →
        (outs.getD i dQ).query = (results.getD i dQ).query ∧
        ∀ response,
          r.clientRerank (results.getD i dQ).query
            ((results.getD i dQ).documents.map Document.text)
            r.modelName = .ok response →
          (outs.getD i dQ).documents.length = min r.nResults response.length ∧
          (response.length < r.nResults →
            (outs.getD i dQ).documents.length = response.length) := by
  induction results with
  | nil => exact ⟨[], rfl, rfl, fun i dQ hi => by simp at hi⟩
  | cons res rest ih =>
    obtain ⟨response, hresp, hidx⟩ := h res (List.mem_cons_self res rest)
    obtain ⟨out, hone, hq, hlen, -⟩ := rerankOne_ok r res response hresp hidx
    obtain ⟨outs, houts, hol, hoget⟩ :=
      ih (fun x hx => h x (List.mem_cons_of_mem res hx))
    refine ⟨out :: outs, ?_, by simp [hol], ?_⟩
    · simp only [CohereReranker.rerank, hone, houts]
      rfl
    · intro i dQ hi
      cases i with
      | zero =>
        rw [List.getD_cons_zero, List.getD_cons_zero]
        refine ⟨hq, ?_⟩
        intro response2 hresp2
        rw [hresp] at hresp2
        injection hresp2 with he
        subst he
        refine ⟨hlen, fun hlt => ?_⟩
        rw [hlen]; omega
      | succ i =>
        rw [List.getD_cons_succ, List.getD_cons_succ]
        exact hoget i dQ (by simpa using hi)

/-- Witness for rerank_batch_shape: one query, n_results = 5, a one-entry
ranking; the whole ranking is returned and the query text is preserved. -/
theorem rerank_batch_shape_witness :
    ∃ outs,
      (CohereReranker.mk "m" 5 (fun _ _ _ => .ok [⟨0, 3 / 4⟩])).rerank
        [⟨"qq", [⟨"i1", "t1", "s", none⟩]⟩] = .ok outs ∧
      outs.length = 1 ∧
      (outs.getD 0 ⟨"", []⟩).query = "qq" ∧
      (outs.getD 0 ⟨"", []⟩).documents.length = 1 := by
  obtain ⟨outs, hok, hlen, hget⟩ := rerank_batch_shape
    (CohereReranker.mk "m" 5 (fun _ _ _ => .ok [⟨0, 3 / 4⟩]))
    [⟨"qq", [⟨"i1", "t1", "s", none⟩]⟩]
    (by
      intro res hres
      simp only [List.mem_singleton] at hres
      subst hres
      exact ⟨[⟨0, 3 / 4⟩], rfl, by decide⟩)
  obtain ⟨hq, hdoc⟩ := hget 0 ⟨"", []⟩ (by simp)
  refine ⟨outs, hok, by simpa using hlen, hq, ?_⟩
  have := (hdoc [⟨0, 3 / 4⟩] rfl).1
  simpa using this

/-- C7: constructing a CohereReranker with no credential available (api_key
argument absent and the CO_API_KEY environment variable unset) fails at
construction with a RuntimeError; no client is built and rerank is never
reached. -/
theorem cohere_init_no_credential (m : String) (n : ℕ) :
    cohereInit true m n none none = .error (.runtimeError
      ("Cohere API key is required to use " ++
       "Cohere Reranker. Please provide it as an argument " ++
       "or set the CO_API_KEY environment variable.")) := by
  rfl
